import Mathlib

/-!
Shallow embedding of the bounding-box core of the double-detection
repository (`src/bounding_box.py`), together with theorems settling the
spec claims about it.

Coordinates and scores are modelled as rationals: Python numbers flowing
through this code are ints or floats, and every operation the code
performs on them (addition, min, max, comparison, floor, ceil) is exact,
so `ℚ` is a faithful carrier.
-/

/-- Embedding of `BoundingBox.__init__` (`src/bounding_box.py`):
four corner coordinates and a confidence score. -/
structure BoundingBox where
  x1 : ℚ
  y1 : ℚ
  x2 : ℚ
  y2 : ℚ
  score : ℚ
deriving DecidableEq, Repr

/-- Embedding of `BoundingBox.to_list`. -/
def BoundingBox.to_list (b : BoundingBox) : List ℚ :=
  [b.x1, b.y1, b.x2, b.y2]

/-- Embedding of `BoundingBox.translate`: shift every coordinate by
`(dx, dy)`, keep the score. -/
def BoundingBox.translate (b : BoundingBox) (dx dy : ℚ) : BoundingBox :=
  ⟨b.x1 + dx, b.y1 + dy, b.x2 + dx, b.y2 + dy, b.score⟩

/-- Embedding of `BoundingBox.from_relative`.  The Python unpacks the
detected box into exactly four coordinates (raising otherwise) and takes
the first two entries of the candidate-block coordinate list (raising
when fewer than two exist); fallibility is modelled with `Option`. -/
def BoundingBox.from_relative (detected_box_coordinate : List ℚ)
    (candidate_block_coordinate : List ℚ) (score : ℚ) : Option BoundingBox :=
  match detected_box_coordinate, candidate_block_coordinate with
  | [rel_x1, rel_y1, rel_x2, rel_y2], block_x :: block_y :: _ =>
      some ⟨rel_x1 + block_x, rel_y1 + block_y,
            rel_x2 + block_x, rel_y2 + block_y, score⟩
  | _, _ => none

/-- Embedding of `BoundingBox.intersects`:
`not (self.x2 < other.x1 or self.x1 > other.x2 or self.y2 < other.y1 or
self.y1 > other.y2)`. -/
def BoundingBox.intersects (a b : BoundingBox) : Bool :=
  !(decide (a.x2 < b.x1) || decide (a.x1 > b.x2) ||
    decide (a.y2 < b.y1) || decide (a.y1 > b.y2))

/-- Embedding of `BoundingBox.merge`: coordinatewise min/max hull, score
is the max of the two scores. -/
def BoundingBox.merge (a b : BoundingBox) : BoundingBox :=
  ⟨min a.x1 b.x1, min a.y1 b.y1, max a.x2 b.x2, max a.y2 b.y2,
   max a.score b.score⟩

/-- Embedding of the inner `while i < len(self.boxes)` loop of
`BoundingBoxes.merge_intersection`: scan the remaining list once from
left to right; a rectangle intersecting the accumulator is merged into
it (and removed, the scan continuing at the element that slid into its
place), a non-intersecting one is kept and the scan moves on.  Returns
the final accumulator and the kept rectangles in order. -/
def mergeScan : BoundingBox → List BoundingBox → BoundingBox × List BoundingBox
  | c, [] => (c, [])
  | c, b :: rest =>
      if c.intersects b then
        mergeScan (c.merge b) rest
      else
        ((mergeScan c rest).1, b :: (mergeScan c rest).2)

/-- Embedding of the outer `while self.boxes` loop of
`BoundingBoxes.merge_intersection`: pop the front rectangle as seed,
run the inner scan over the rest, append the resulting accumulator,
repeat on the kept remainder.  The loop is given explicit fuel so that
it is structurally recursive; every outer iteration strictly shrinks
the list, so `fuel = length` is always sufficient (see
`mergeAllFuel_fuel_irrelevant`). -/
def mergeAllFuel : Nat → List BoundingBox → List BoundingBox
  | _, [] => []
  | 0, _ :: _ => []
  | fuel + 1, b :: rest =>
      (mergeScan b rest).1 :: mergeAllFuel fuel (mergeScan b rest).2

/-- Embedding of `BoundingBoxes`: an ordered collection of boxes. -/
structure BoundingBoxes where
  boxes : List BoundingBox
deriving DecidableEq, Repr

/-- Embedding of `BoundingBoxes.add_box`: append at the end. -/
def BoundingBoxes.add_box (c : BoundingBoxes) (b : BoundingBox) : BoundingBoxes :=
  ⟨c.boxes ++ [b]⟩

/-- Embedding of `BoundingBoxes.merge_intersection` (the in-place update
is modelled by returning the new collection). -/
def BoundingBoxes.merge_intersection (c : BoundingBoxes) : BoundingBoxes :=
  ⟨mergeAllFuel c.boxes.length c.boxes⟩

/-- Embedding of `BoundingBoxes.get_all_boxes`. -/
def BoundingBoxes.get_all_boxes (c : BoundingBoxes) : List BoundingBox :=
  c.boxes

/-- `c` geometrically encloses `b`: all four coordinates of `b` lie
within `c`. -/
def encloses (c b : BoundingBox) : Prop :=
  c.x1 ≤ b.x1 ∧ c.y1 ≤ b.y1 ∧ b.x2 ≤ c.x2 ∧ b.y2 ≤ c.y2

instance (c b : BoundingBox) : Decidable (encloses c b) := by
  unfold encloses; infer_instance

/-- Resolution of a Python slice endpoint for a sequence of length `n`:
a negative index counts from the end (then is clamped below at 0), a
non-negative one is clamped above at `n`. -/
def pyIdx (n : Nat) (i : ℤ) : Nat :=
  if i < 0 then (i + n).toNat else min i.toNat n

/-- Python slicing `l[a:b]` with the endpoint semantics of `pyIdx`. -/
def pySlice (l : List α) (a b : ℤ) : List α :=
  (l.take (pyIdx l.length b)).drop (pyIdx l.length a)

/-- Embedding of `BoundingBox.crop_image`: read the image shape, clamp
`x1, y1` (floored) below at 0 and `x2, y2` (ceiled) above at the image
width/height, then slice `image[y1:y2, x1:x2]`.  The image is a list of
rows; its width, as in `image.shape`, is the length of the first row. -/
def BoundingBox.crop_image (b : BoundingBox) (image : List (List α)) : List (List α) :=
  let height : ℤ := image.length
  let width : ℤ := (image.headD []).length
  let x1 : ℤ := max ⌊b.x1⌋ 0
  let y1 : ℤ := max ⌊b.y1⌋ 0
  let x2 : ℤ := min ⌈b.x2⌉ width
  let y2 : ℤ := min ⌈b.y2⌉ height
  (pySlice image y1 y2).map (fun row => pySlice row x1 x2)

/-- The crop window as the spec words it (refinement target for the
claim about `crop_image`): the rows with index in
`[max(floor(y1),0), min(ceil(y2),height))` and, within them, the columns
with index in `[max(floor(x1),0), min(ceil(x2),width))`. -/
def cropWindowSpec (b : BoundingBox) (image : List (List α)) : List (List α) :=
  let height : ℤ := image.length
  let width : ℤ := (image.headD []).length
  let x1 : ℤ := max ⌊b.x1⌋ 0
  let y1 : ℤ := max ⌊b.y1⌋ 0
  let x2 : ℤ := min ⌈b.x2⌉ width
  let y2 : ℤ := min ⌈b.y2⌉ height
  ((image.take y2.toNat).drop y1.toNat).map
    (fun row => (row.take x2.toNat).drop x1.toNat)

/-- The inner scan never lengthens the remaining list. -/
theorem mergeScan_length (c : BoundingBox) (l : List BoundingBox) :
    (mergeScan c l).2.length ≤ l.length := by
  induction l generalizing c with
  | nil => simp [mergeScan]
  | cons b rest ih =>
      simp only [mergeScan]
      split
      · exact Nat.le_succ_of_le (ih _)
      · simpa using ih c

/-- Any fuel at least the length of the list gives the same result as
fuel equal to the length: the outer loop consumes one list element per
unit of fuel and the scan never lengthens the remainder. -/
theorem mergeAllFuel_fuel_irrelevant (f g : Nat) (l : List BoundingBox)
    (hf : l.length ≤ f) (hg : l.length ≤ g) :
    mergeAllFuel f l = mergeAllFuel g l := by
  induction f generalizing g l with
  | zero =>
      have : l = [] := List.length_eq_zero.mp (Nat.le_zero.mp hf)
      subst this
      cases g <;> rfl
  | succ f ih =>
      cases l with
      | nil => cases g <;> rfl
      | cons b rest =>
          cases g with
          | zero => exact absurd hg (by simp)
          | succ g =>
              simp only [mergeAllFuel]
              have hr := mergeScan_length b rest
              have h1 : (mergeScan b rest).2.length ≤ f := by
                have := Nat.le_of_succ_le_succ hf
                simpa using Nat.le_trans hr (by simpa using this)
              have h2 : (mergeScan b rest).2.length ≤ g := by
                have := Nat.le_of_succ_le_succ hg
                simpa using Nat.le_trans hr (by simpa using this)
              rw [ih g (mergeScan b rest).2 h1 h2]

/-- `merge` encloses its first argument. -/
theorem merge_encloses_left (a b : BoundingBox) : encloses (a.merge b) a :=
  ⟨min_le_left _ _, min_le_left _ _, le_max_left _ _, le_max_left _ _⟩

/-- `merge` encloses its second argument. -/
theorem merge_encloses_right (a b : BoundingBox) : encloses (a.merge b) b :=
  ⟨min_le_right _ _, min_le_right _ _, le_max_right _ _, le_max_right _ _⟩

/-- `merge` is enclosed by every rectangle enclosing both arguments. -/
theorem merge_encloses_least {a b c : BoundingBox} (hca : encloses c a)
    (hcb : encloses c b) : encloses c (a.merge b) :=
  ⟨le_min hca.1 hcb.1, le_min hca.2.1 hcb.2.1,
   max_le hca.2.2.1 hcb.2.2.1, max_le hca.2.2.2 hcb.2.2.2⟩

/-- C5: `merge(a,b)` is the minimal enclosing rectangle — coordinatewise
`min`/`max` hull of the two inputs — and its score is
`max(a.score, b.score)`.  Minimality: it encloses both inputs and is
enclosed by every rectangle enclosing both. -/
theorem merge_minimal_enclosing (a b : BoundingBox) :
    a.merge b = ⟨min a.x1 b.x1, min a.y1 b.y1, max a.x2 b.x2, max a.y2 b.y2,
                 max a.score b.score⟩
    ∧ (a.merge b).score = max a.score b.score
    ∧ encloses (a.merge b) a ∧ encloses (a.merge b) b
    ∧ ∀ c : BoundingBox, encloses c a → encloses c b → encloses c (a.merge b) :=
  ⟨rfl, rfl, merge_encloses_left a b, merge_encloses_right a b,
   fun _ hca hcb => merge_encloses_least hca hcb⟩

/-- Witness for C5's minimality clause at concrete rectangles. -/
theorem merge_minimal_enclosing_witness :
    BoundingBox.merge ⟨0, 0, 4, 4, 1/2⟩ ⟨2, 2, 6, 6, 3/4⟩ = ⟨0, 0, 6, 6, 3/4⟩
    ∧ encloses ⟨-1, -1, 7, 7, 0⟩
        (BoundingBox.merge ⟨0, 0, 4, 4, 1/2⟩ ⟨2, 2, 6, 6, 3/4⟩) :=
  ⟨by norm_num [BoundingBox.merge],
   (merge_minimal_enclosing ⟨0, 0, 4, 4, 1/2⟩ ⟨2, 2, 6, 6, 3/4⟩).2.2.2.2
     ⟨-1, -1, 7, 7, 0⟩ (by decide) (by decide)⟩

/-- C6: `from_relative` shifts the local box by the first two entries of
the origin list (ignoring any further entries) and attaches the score;
in particular `from_relative [2,3,10,12] [100,200] 0.9` is
`BoundingBox 102 203 110 212 0.9`. -/
theorem from_relative_spec :
    (∀ (rx1 ry1 rx2 ry2 bx b0 s : ℚ) (rest : List ℚ),
      BoundingBox.from_relative [rx1, ry1, rx2, ry2] (bx :: b0 :: rest) s
        = some ⟨rx1 + bx, ry1 + b0, rx2 + bx, ry2 + b0, s⟩)
    ∧ BoundingBox.from_relative [2, 3, 10, 12] [100, 200] (9/10)
        = some ⟨102, 203, 110, 212, 9/10⟩ := by
  refine ⟨fun rx1 ry1 rx2 ry2 bx b0 s rest => rfl, ?_⟩
  simp only [BoundingBox.from_relative]
  norm_num

/-- C7: `translate` shifts every coordinate by `(dx, dy)` keeping the
score, and two translations compose into a single translation with the
summed deltas. -/
theorem translate_spec (b : BoundingBox) (dx1 dy1 dx2 dy2 : ℚ) :
    b.translate dx1 dy1
      = ⟨b.x1 + dx1, b.y1 + dy1, b.x2 + dx1, b.y2 + dy1, b.score⟩
    ∧ (b.translate dx1 dy1).score = b.score
    ∧ (b.translate dx1 dy1).translate dx2 dy2
        = b.translate (dx1 + dx2) (dy1 + dy2) := by
  refine ⟨rfl, rfl, ?_⟩
  simp [BoundingBox.translate, add_assoc]

/-- C8: `intersects` is the inclusive separating-axis test — true exactly
when the boxes are not fully separated along either axis — so boxes that
merely touch count; in particular `(0,0,5,5)` and `(5,5,10,10)`,
touching at a single point, intersect. -/
theorem intersects_spec :
    (∀ a b : BoundingBox,
      a.intersects b = true
        ↔ ¬(a.x2 < b.x1 ∨ a.x1 > b.x2 ∨ a.y2 < b.y1 ∨ a.y1 > b.y2))
    ∧ BoundingBox.intersects ⟨0, 0, 5, 5, 0⟩ ⟨5, 5, 10, 10, 0⟩ = true := by
  constructor
  · intro a b
    simp only [BoundingBox.intersects, Bool.not_eq_true', Bool.or_eq_false_iff,
      decide_eq_false_iff_not, not_lt, gt_iff_lt, not_or]
    tauto
  · decide

/-- C1: contrary to the claimed postcondition, `merge_intersection` can
return two rectangles that intersect.  On the input
`[(0,0,6,6), (10,10,11,11), (5,5,20,20)]` the seed `(0,0,6,6)` skips
`(10,10,11,11)` (they are disjoint), then merges `(5,5,20,20)` into the
accumulator `(0,0,20,20)`; the already-skipped rectangle is never
re-tested against the grown accumulator, so the result contains both
`(0,0,20,20)` and `(10,10,11,11)`, which intersect. -/
theorem merge_intersection_result_can_intersect :
    (BoundingBoxes.mk [⟨0, 0, 6, 6, 0⟩, ⟨10, 10, 11, 11, 0⟩, ⟨5, 5, 20, 20, 0⟩]).merge_intersection.boxes
      = [⟨0, 0, 20, 20, 0⟩, ⟨10, 10, 11, 11, 0⟩]
    ∧ BoundingBox.intersects ⟨0, 0, 20, 20, 0⟩ ⟨10, 10, 11, 11, 0⟩ = true := by
  decide

/-- C2: contrary to the claim, the per-seed scan is a single forward
pass, not a loop to a fixed point: for seed `(0,0,6,6)` over
`[(10,10,11,11), (5,5,20,20)]` the scan ends with accumulator
`(0,0,20,20)` while the remaining rectangle `(10,10,11,11)` intersects
it, and `merge_intersection` appends that accumulator anyway. -/
theorem merge_scan_stops_after_one_pass :
    mergeScan ⟨0, 0, 6, 6, 0⟩ [⟨10, 10, 11, 11, 0⟩, ⟨5, 5, 20, 20, 0⟩]
      = (⟨0, 0, 20, 20, 0⟩, [⟨10, 10, 11, 11, 0⟩])
    ∧ BoundingBox.intersects ⟨0, 0, 20, 20, 0⟩ ⟨10, 10, 11, 11, 0⟩ = true
    ∧ (BoundingBoxes.mk [⟨0, 0, 6, 6, 0⟩, ⟨10, 10, 11, 11, 0⟩, ⟨5, 5, 20, 20, 0⟩]).merge_intersection.boxes.head?
        = some ⟨0, 0, 20, 20, 0⟩ := by
  decide

/-- C3: contrary to the claim, `merge_intersection` is not idempotent:
on `[(0,0,6,6), (10,10,11,11), (5,5,20,20)]` one application leaves two
(still intersecting) rectangles and a second application merges them
into one. -/
theorem merge_intersection_not_idempotent :
    (BoundingBoxes.mk [⟨0, 0, 6, 6, 0⟩, ⟨10, 10, 11, 11, 0⟩, ⟨5, 5, 20, 20, 0⟩]).merge_intersection.merge_intersection
      ≠ (BoundingBoxes.mk [⟨0, 0, 6, 6, 0⟩, ⟨10, 10, 11, 11, 0⟩, ⟨5, 5, 20, 20, 0⟩]).merge_intersection := by
  decide

/-- C4: contrary to the claim, accumulation order can change the merged
set: the two orderings of the same three rectangles below are
permutations of one another, yet `(10,10,11,11)` survives
`merge_intersection` in one ordering and is absorbed in the other. -/
theorem merge_intersection_order_dependent :
    ([⟨0, 0, 6, 6, 0⟩, ⟨10, 10, 11, 11, 0⟩, ⟨5, 5, 20, 20, 0⟩] : List BoundingBox).Perm
        [⟨0, 0, 6, 6, 0⟩, ⟨5, 5, 20, 20, 0⟩, ⟨10, 10, 11, 11, 0⟩]
    ∧ (⟨10, 10, 11, 11, 0⟩ : BoundingBox)
        ∈ (BoundingBoxes.mk [⟨0, 0, 6, 6, 0⟩, ⟨10, 10, 11, 11, 0⟩, ⟨5, 5, 20, 20, 0⟩]).merge_intersection.boxes
    ∧ (⟨10, 10, 11, 11, 0⟩ : BoundingBox)
        ∉ (BoundingBoxes.mk [⟨0, 0, 6, 6, 0⟩, ⟨5, 5, 20, 20, 0⟩, ⟨10, 10, 11, 11, 0⟩]).merge_intersection.boxes := by
  decide

/-- `encloses` is reflexive. -/
theorem encloses_refl (b : BoundingBox) : encloses b b :=
  ⟨le_refl _, le_refl _, le_refl _, le_refl _⟩

/-- `encloses` is transitive. -/
theorem encloses_trans {a b c : BoundingBox} (hab : encloses a b)
    (hbc : encloses b c) : encloses a c :=
  ⟨le_trans hab.1 hbc.1, le_trans hab.2.1 hbc.2.1,
   le_trans hbc.2.2.1 hab.2.2.1, le_trans hbc.2.2.2 hab.2.2.2⟩

/-- The accumulator returned by the inner scan encloses the accumulator
it started from. -/
theorem mergeScan_encloses_start (c : BoundingBox) (l : List BoundingBox) :
    encloses (mergeScan c l).1 c := by
  induction l generalizing c with
  | nil => exact encloses_refl c
  | cons b rest ih =>
      simp only [mergeScan]
      split
      · exact encloses_trans (ih (c.merge b)) (merge_encloses_left c b)
      · exact ih c

/-- Every rectangle scanned is either kept in the remainder or enclosed
by the final accumulator. -/
theorem mergeScan_covers (c : BoundingBox) (l : List BoundingBox) :
    ∀ b' ∈ l, b' ∈ (mergeScan c l).2 ∨ encloses (mergeScan c l).1 b' := by
  induction l generalizing c with
  | nil => intro b' h; cases h
  | cons b rest ih =>
      intro b' hb'
      simp only [mergeScan]
      split
      · rcases List.mem_cons.mp hb' with h | h
        · subst h
          exact Or.inr (encloses_trans (mergeScan_encloses_start (c.merge b') rest)
            (merge_encloses_right c b'))
        · exact ih (c.merge b) b' h
      · rcases List.mem_cons.mp hb' with h | h
        · subst h
          exact Or.inl (List.mem_cons_self _ _)
        · rcases ih c b' h with h' | h'
          · exact Or.inl (List.mem_cons_of_mem _ h')
          · exact Or.inr h'

/-- With enough fuel, the outer loop's output is no longer than its
input. -/
theorem mergeAllFuel_length (fuel : Nat) (l : List BoundingBox)
    (h : l.length ≤ fuel) : (mergeAllFuel fuel l).length ≤ l.length := by
  induction fuel generalizing l with
  | zero =>
      have : l = [] := List.length_eq_zero.mp (Nat.le_zero.mp h)
      subst this; simp [mergeAllFuel]
  | succ fuel ih =>
      cases l with
      | nil => simp [mergeAllFuel]
      | cons b rest =>
          simp only [mergeAllFuel, List.length_cons]
          have hr := mergeScan_length b rest
          have := ih (mergeScan b rest).2
            (le_trans hr (Nat.le_of_succ_le_succ h))
          exact Nat.succ_le_succ (le_trans this hr)

/-- With enough fuel, every input rectangle is enclosed by some output
rectangle of the outer loop. -/
theorem mergeAllFuel_covers (fuel : Nat) (l : List BoundingBox)
    (h : l.length ≤ fuel) :
    ∀ b ∈ l, ∃ c ∈ mergeAllFuel fuel l, encloses c b := by
  induction fuel generalizing l with
  | zero =>
      have : l = [] := List.length_eq_zero.mp (Nat.le_zero.mp h)
      subst this; intro b hb; cases hb
  | succ fuel ih =>
      cases l with
      | nil => intro b hb; cases hb
      | cons b0 rest =>
          intro b hb
          have hfuel : (mergeScan b0 rest).2.length ≤ fuel :=
            le_trans (mergeScan_length b0 rest) (Nat.le_of_succ_le_succ h)
          rcases List.mem_cons.mp hb with hb | hb
          · subst hb
            exact ⟨(mergeScan b rest).1,
              by simp [mergeAllFuel], mergeScan_encloses_start b rest⟩
          · rcases mergeScan_covers b0 rest b hb with h' | h'
            · rcases ih (mergeScan b0 rest).2 hfuel b h' with ⟨c, hc, hcb⟩
              exact ⟨c, by simp [mergeAllFuel, hc], hcb⟩
            · exact ⟨(mergeScan b0 rest).1, by simp [mergeAllFuel], h'⟩

/-- C10: `merge_intersection` never loses coverage — every rectangle of
the original collection is geometrically enclosed by some rectangle of
the result — and never lengthens the collection. -/
theorem merge_intersection_covers_and_shrinks (c : BoundingBoxes) :
    (∀ b ∈ c.boxes, ∃ d ∈ c.merge_intersection.boxes, encloses d b)
    ∧ c.merge_intersection.boxes.length ≤ c.boxes.length := by
  exact ⟨mergeAllFuel_covers c.boxes.length c.boxes (le_refl _),
         mergeAllFuel_length c.boxes.length c.boxes (le_refl _)⟩

/-- Witness for C10 at a concrete two-element collection. -/
theorem merge_intersection_covers_and_shrinks_witness :
    (∃ d ∈ (BoundingBoxes.mk [⟨0, 0, 4, 4, 0⟩, ⟨3, 3, 9, 9, 0⟩]).merge_intersection.boxes,
        encloses d ⟨3, 3, 9, 9, 0⟩)
    ∧ (BoundingBoxes.mk [⟨0, 0, 4, 4, 0⟩, ⟨3, 3, 9, 9, 0⟩]).merge_intersection.boxes.length
        ≤ (BoundingBoxes.mk [⟨0, 0, 4, 4, 0⟩, ⟨3, 3, 9, 9, 0⟩]).boxes.length := by
  refine ⟨?_, (merge_intersection_covers_and_shrinks
      (BoundingBoxes.mk [⟨0, 0, 4, 4, 0⟩, ⟨3, 3, 9, 9, 0⟩])).2⟩
  exact (merge_intersection_covers_and_shrinks
      (BoundingBoxes.mk [⟨0, 0, 4, 4, 0⟩, ⟨3, 3, 9, 9, 0⟩])).1
      ⟨3, 3, 9, 9, 0⟩ (by decide)

/-- Taking `min a (length l)` elements is the same as taking `a`. -/
theorem take_min_length (l : List α) (a : Nat) :
    l.take (min a l.length) = l.take a := by
  rcases Nat.le_total a l.length with h | h
  · rw [Nat.min_eq_left h]
  · rw [Nat.min_eq_right h, List.take_length, List.take_of_length_le h]

/-- Dropping `min a n` elements from a list no longer than `n` is the
same as dropping `a`. -/
theorem drop_min_of_length_le (l : List α) (a n : Nat) (h : l.length ≤ n) :
    l.drop (min a n) = l.drop a := by
  rcases Nat.le_total a n with h' | h'
  · rw [Nat.min_eq_left h']
  · rw [Nat.min_eq_right h', List.drop_of_length_le h,
      List.drop_of_length_le (le_trans h h')]

/-- For non-negative endpoints, Python slicing is plain take-then-drop. -/
theorem pySlice_nonneg (l : List α) (a b : ℤ) (ha : 0 ≤ a) (hb : 0 ≤ b) :
    pySlice l a b = (l.take b.toNat).drop a.toNat := by
  unfold pySlice pyIdx
  rw [if_neg (not_lt.mpr hb), if_neg (not_lt.mpr ha), take_min_length,
    drop_min_of_length_le _ _ _ (by rw [List.length_take]; exact min_le_right _ _)]

/-- C9 (amended): whenever `ceil(x2) ≥ 0` and `ceil(y2) ≥ 0` — in
particular for every box with `x2 ≥ 0` and `y2 ≥ 0`, which covers all
boxes merely extending past the image edges — `crop_image` returns
exactly the window of rows `[max(floor(y1),0), min(ceil(y2),height))`
and columns `[max(floor(x1),0), min(ceil(x2),width))`, so the slice
stays within the image bounds. -/
theorem crop_image_window {α : Type} (b : BoundingBox) (image : List (List α))
    (hx : 0 ≤ ⌈b.x2⌉) (hy : 0 ≤ ⌈b.y2⌉) :
    b.crop_image image = cropWindowSpec b image := by
  simp only [BoundingBox.crop_image, cropWindowSpec]
  rw [pySlice_nonneg _ _ _ (le_max_right _ _)
    (le_min hy (Int.ofNat_nonneg _))]
  congr 1
  funext row
  exact pySlice_nonneg _ _ _ (le_max_right _ _) (le_min hx (Int.ofNat_nonneg _))

/-- C9 counterexample: for the box `(-5,-5,-3,-3)` on a 4×4 image the
claimed effective window `(0, 0, min(ceil(-3),4), min(ceil(-3),4))
= (0,0,-3,-3)` is empty, but `crop_image` slices `image[0:-3, 0:-3]`,
where Python reinterprets the negative stop `-3` as `-3 + 4 = 1`, and
returns the non-empty single-cell crop `[[0]]`. -/
theorem crop_image_not_window_for_negative_stop :
    BoundingBox.crop_image ⟨-5, -5, -3, -3, 0⟩
        [[(0:ℕ), 1, 2, 3], [4, 5, 6, 7], [8, 9, 10, 11], [12, 13, 14, 15]]
      = [[0]]
    ∧ cropWindowSpec ⟨-5, -5, -3, -3, 0⟩
        [[(0:ℕ), 1, 2, 3], [4, 5, 6, 7], [8, 9, 10, 11], [12, 13, 14, 15]]
      = [] := by
  decide

/-- Witness for C9 at the spec's own instance: the box
`(-5, 0, width+5, height)` on a 2×2 image satisfies the ceiling
hypotheses, equals its claimed window, and that window is the whole
image. -/
theorem crop_image_window_witness :
    ((0:ℤ) ≤ ⌈(7:ℚ)⌉ ∧ (0:ℤ) ≤ ⌈(2:ℚ)⌉)
    ∧ BoundingBox.crop_image ⟨-5, 0, 7, 2, 0⟩ [[(1:ℕ), 2], [3, 4]]
        = cropWindowSpec ⟨-5, 0, 7, 2, 0⟩ [[(1:ℕ), 2], [3, 4]]
    ∧ BoundingBox.crop_image ⟨-5, 0, 7, 2, 0⟩ [[(1:ℕ), 2], [3, 4]]
        = [[1, 2], [3, 4]] :=
  ⟨⟨by decide, by decide⟩,
   crop_image_window ⟨-5, 0, 7, 2, 0⟩ [[(1:ℕ), 2], [3, 4]] (by decide) (by decide),
   by decide⟩
